import Mathlib

/-!
Verification of the docker/model-cli runner-client and REPL core.

The definitions below are a shallow embedding of the Go sources:
  * desktop/desktop.go          (runner client, pull progress, chat stream)
  * pkg/standalone/containers.go (standalone installer)
  * commands/compose.go          (compose hook)
  * pkg/history                  (REPL history store)

Go strings are embedded as Lean String where only whole-string operations
occur, and as List Char (GoStr) inside the history component, where the
proofs need structural recursion over the characters.  Go int is embedded
as Int; machine overflow is irrelevant at the sizes involved.  Fallible or
panicking Go code is embedded with Option/Except, a panic being None.
-/

namespace ModelCLI

/-- Embedding of Go strings.ToLower (character-wise lowercasing). -/
def goToLower (s : String) : String :=
  String.mk (s.toList.map Char.toLower)

/-- Embedding of Go strings.HasPrefix, stated over the character lists so
that it evaluates by kernel reduction. -/
def goStartsWith (s marker : String) : Bool :=
  marker.toList.isPrefixOf s.toList

/-! ## Reference normalization (desktop/desktop.go, normalizeHuggingFaceModelName) -/

/-- Embedding of desktop.normalizeHuggingFaceModelName: converts Hugging Face
model names (references beginning with the registry marker) to lowercase. -/
def normalizeHuggingFaceModelName (model : String) : String :=
  if goStartsWith model "hf.co/" then goToLower model else model

/-- Embedding of the ModelCreateRequest wire structure used by Pull
(field names From / IgnoreRuntimeMemoryCheck in the Go source). -/
structure ModelCreateRequest where
  fromRef : String
  ignoreRuntimeMemoryCheck : Bool
deriving DecidableEq, Repr

/-- Embedding of the request-body construction at the top of Client.Pull:
the model reference is normalized and then marshalled as the From field of
the outbound ModelCreateRequest. -/
def pullRequestBody (model : String) (ignoreRuntimeMemoryCheck : Bool) : ModelCreateRequest :=
  let model := normalizeHuggingFaceModelName model
  { fromRef := model, ignoreRuntimeMemoryCheck := ignoreRuntimeMemoryCheck }

/-! ## Chat stream rendering (desktop/desktop.go, Client.Chat) -/

/-- Embedding of the chatPrinterState enumeration of desktop.go. -/
inductive ChatPrinterState where
  | chatPrinterNone
  | chatPrinterContent
  | chatPrinterReasoning
deriving DecidableEq, Repr

open ChatPrinterState

/-- Embedding of the delta payload of a chat stream chunk. -/
structure ChatDelta where
  reasoningContent : String
  content : String
deriving DecidableEq, Repr

/-- Embedding of one choice of a chat stream chunk. -/
structure ChatChoice where
  delta : ChatDelta
deriving DecidableEq, Repr

/-- Embedding of a decoded chat stream chunk (OpenAIChatResponse). -/
structure ChatChunk where
  choices : List ChatChoice
deriving DecidableEq, Repr

/-- Embedding of the per-chunk rendering step of Client.Chat: given the
printer state and a decoded chunk, produce the new state and the text
written to the terminal (ANSI styling ignored; the styled
Println of the Thinking header writes the header plus a newline). -/
def processChunk (s : ChatPrinterState) (resp : ChatChunk) : ChatPrinterState × String :=
  match resp.choices with
  | [] => (s, "")
  | choice :: _ =>
    let step1 : ChatPrinterState × String :=
      if choice.delta.reasoningContent ≠ "" then
        let pre := if s = chatPrinterContent then "\n\n" else ""
        let hdr := if s ≠ chatPrinterReasoning then "Thinking:\n" else ""
        (chatPrinterReasoning, pre ++ hdr ++ choice.delta.reasoningContent)
      else (s, "")
    let step2 : ChatPrinterState × String :=
      if choice.delta.content ≠ "" then
        let pre := if step1.1 = chatPrinterReasoning then "\n\n" else ""
        (chatPrinterContent, pre ++ choice.delta.content)
      else (step1.1, "")
    (step2.1, step1.2 ++ step2.2)

/-- Embedding of the Chat rendering loop: fold processChunk over the decoded
chunks, accumulating the text written to stdout. -/
def renderChat (chunks : List ChatChunk) : String :=
  (chunks.foldl
    (fun (acc : ChatPrinterState × String) c =>
      let r := processChunk acc.1 c
      (r.1, acc.2 ++ r.2))
    (chatPrinterNone, "")).2

/-- Modelled from the spec: the three-state chat rendering transition exactly
as the specification words it, for comparison against processChunk.  A chunk
with non-empty reasoning emits two newlines when the state is Content and a
Thinking header when the state is not Reasoning, then writes the reasoning
fragment and sets state Reasoning; a chunk with non-empty content emits two
newlines when the state is Reasoning, then writes the fragment and sets
state Content. -/
def chatSpecStep (s : ChatPrinterState) (resp : ChatChunk) : ChatPrinterState × String :=
  match resp.choices with
  | [] => (s, "")
  | choice :: _ =>
    let afterReasoning : ChatPrinterState × String :=
      if choice.delta.reasoningContent ≠ "" then
        (chatPrinterReasoning,
          (if s = chatPrinterContent then "\n\n" else "")
            ++ (if s ≠ chatPrinterReasoning then "Thinking:\n" else "")
            ++ choice.delta.reasoningContent)
      else (s, "")
    if choice.delta.content ≠ "" then
      (chatPrinterContent,
        afterReasoning.2
          ++ (if afterReasoning.1 = chatPrinterReasoning then "\n\n" else "")
          ++ choice.delta.content)
    else afterReasoning

/-! ## REPL history store (pkg/history, first version in src/unnamed/part_000) -/

/-- Embedding of a Go string inside the history component: a list of
characters, so that the split/join proofs can recurse structurally. -/
abbrev GoStr := List Char

/-- Embedding of the MaxHistoryLength constant of pkg/history. -/
def MaxHistoryLength : Nat := 100

/-- Embedding of strings.Contains(question, a newline): with a
single-character needle this is character containment. -/
def goContainsNL (s : GoStr) : Bool :=
  s.contains '\n'

/-- Embedding of strings.Join(h, a newline separator). -/
def goJoinNL : List GoStr → GoStr
  | [] => []
  | [s] => s
  | s :: rest => s ++ '\n' :: goJoinNL rest

/-- Embedding of strings.Split(s, a newline separator): splits at every
newline; the empty string yields one empty field, matching Go. -/
def goSplitNL : GoStr → List GoStr
  | [] => [[]]
  | c :: cs =>
    if c = '\n' then [] :: goSplitNL cs
    else
      match goSplitNL cs with
      | [] => [[c]]
      | r :: rs => (c :: r) :: rs

/-- Embedding of strings.TrimSuffix(s, a newline): removes one trailing
newline character if present. -/
def goTrimSuffixNL (s : GoStr) : GoStr :=
  if s.getLast? = some '\n' then s.dropLast else s

/-- Helper for the duplicate-suppressing load loop: keeps the first
occurrence of each line, carrying the set of lines already seen. -/
def dedupFirstAux (seen : List GoStr) : List GoStr → List GoStr
  | [] => []
  | l :: ls =>
    if seen.contains l then dedupFirstAux seen ls
    else l :: dedupFirstAux (l :: seen) ls

/-- Duplicate suppression keeping the first occurrence of each line, as
performed by the load loop of pkg/history. -/
def dedupFirst (ls : List GoStr) : List GoStr :=
  dedupFirstAux [] ls

/-- Embedding of the History state: the in-memory line list together with
the content of history.txt (none when the file is absent). -/
structure HistoryState where
  history : List GoStr
  file : Option GoStr
deriving DecidableEq, Repr

namespace History

/-- Embedding of History.load applied to the raw file data: trim one
trailing newline, split on newlines, and suppress duplicate lines keeping
the first occurrence. -/
def loadData (data : GoStr) : List GoStr :=
  dedupFirst (goSplitNL (goTrimSuffixNL data))

/-- Embedding of History.load over the optional file: an absent file loads
as the empty history. -/
def load (file : Option GoStr) : List GoStr :=
  match file with
  | none => []
  | some data => loadData data

/-- Embedding of the persistence step of History.Append: the in-memory list
is newline-joined (no trailing newline) and becomes the file content. -/
def save (h : List GoStr) : GoStr :=
  goJoinNL h

/-- Embedding of History.Append as a state transformer (the error-free
filesystem path): lines containing a newline are rejected unchanged;
otherwise the line is pushed, the list trimmed to the last
MaxHistoryLength entries, and the join persisted atomically. -/
def Append (st : HistoryState) (question : GoStr) : HistoryState :=
  if goContainsNL question then st
  else
    let h := st.history ++ [question]
    let h := if h.length > MaxHistoryLength then h.drop (h.length - MaxHistoryLength) else h
    { history := h, file := some (save h) }

/-- Result triple of the history navigation functions (new text, new
history index, new cursor position). -/
structure NavResult where
  text : GoStr
  index : Int
  cursor : Int
deriving DecidableEq, Repr

/-- Embedding of History.Previous.  The Go indexing expression
history[newIndex] panics when newIndex is at or beyond the list length;
that panic is embedded as none. -/
def Previous (h : List GoStr) (text : GoStr) (cursorPosition : Int) (historyIndex : Int) :
    Option NavResult :=
  let historyIndex := if historyIndex = -1 ∧ 0 < h.length then (h.length : Int) else historyIndex
  if 0 < historyIndex ∧ 0 < h.length then
    let newIndex := historyIndex - 1
    match h.get? newIndex.toNat with
    | some item => some ⟨item, newIndex, (item.length : Int)⟩
    | none => none
  else
    some ⟨text, historyIndex, cursorPosition⟩

/-- Embedding of History.Next.  The guarded index increment stays inside
the list, but the panic-aware embedding is kept symmetric with Previous. -/
def Next (h : List GoStr) (text : GoStr) (cursorPosition : Int) (historyIndex : Int) :
    Option NavResult :=
  if historyIndex < (h.length : Int) - 1 ∧ 0 ≤ historyIndex then
    let newIndex := historyIndex + 1
    match h.get? newIndex.toNat with
    | some item => some ⟨item, newIndex, (item.length : Int)⟩
    | none => none
  else
    some ⟨text, historyIndex, cursorPosition⟩

end History

/-! ## Runner client requests and Status (desktop/desktop.go) -/

/-- Embedding of the models route mount point consumed from the runner
package (spec section 6 REST surface). -/
def modelsRoutePath : String := "/models"

/-- Embedding of the inference route mount point consumed from the runner
package (spec section 6 REST surface). -/
def inferenceRoutePath : String := "/inference"

/-- Embedding of an HTTP response as far as the client inspects it. -/
structure HTTPResponse where
  statusCode : Nat
  body : String
deriving DecidableEq, Repr

/-- Outcome of one transport round trip: a response, or a transport-level
error. -/
inductive ReqOutcome where
  | ok (resp : HTTPResponse)
  | netErr (msg : String)
deriving DecidableEq, Repr

/-- Embedding of the transport: what the engine returns for a given method
and path. -/
def Transport := String → String → ReqOutcome

/-- Errors surfaced by the client helpers: the ServiceUnavailable sentinel,
or a generic error carrying its message. -/
inductive ClientError where
  | serviceUnavailable
  | other (msg : String)
deriving DecidableEq, Repr

/-- Embedding of Client.doRequestWithAuth restricted to what it does with
the response: transport errors are returned as-is, and a 503 response is
closed and mapped to the ServiceUnavailable sentinel with no response
returned. -/
def doRequestWithAuth (t : Transport) (method path : String) :
    Except ClientError HTTPResponse :=
  match t method path with
  | .netErr m => .error (.other m)
  | .ok resp =>
    if resp.statusCode = 503 then .error .serviceUnavailable
    else .ok resp

/-- Embedding of Client.doRequest, which delegates to doRequestWithAuth
with no backend and no API key. -/
def doRequest (t : Transport) (method path : String) : Except ClientError HTTPResponse :=
  doRequestWithAuth t method path

/-- Embedding of Client.handleQueryError: the ServiceUnavailable sentinel
passes through, every other error is wrapped with the queried path. -/
def handleQueryError (e : ClientError) (path : String) : ClientError :=
  match e with
  | .serviceUnavailable => .serviceUnavailable
  | .other m => .other ("error querying " ++ path ++ ": " ++ m)

/-- Embedding of the Status result structure of desktop.go. -/
structure StatusResult where
  running : Bool
  status : String
  error : Option ClientError
deriving DecidableEq, Repr

/-- Embedding of Client.Status: probe the models-list endpoint; on a 503
(ServiceUnavailable) return not-running with no error; on another request
error return it; on 200 also query the inference status sub-endpoint and
return its body; on any other status code return an error. -/
def clientStatus (t : Transport) : StatusResult :=
  match doRequest t "GET" modelsRoutePath with
  | .error e =>
    match handleQueryError e modelsRoutePath with
    | .serviceUnavailable => { running := false, status := "", error := none }
    | e => { running := false, status := "", error := some e }
  | .ok resp =>
    if resp.statusCode = 200 then
      let status :=
        match doRequest t "GET" (inferenceRoutePath ++ "/status") with
        | .error e => "error querying status: " ++ (repr e).pretty
        | .ok statusResp => statusResp.body
      { running := true, status := status, error := none }
    else
      { running := false, status := "",
        error := some (.other ("unexpected status code: " ++ toString resp.statusCode)) }

/-! ## Standalone installer (pkg/standalone/containers.go) -/

/-- Character class of the capture group of concurrentInstallMatcher. -/
def isLowerAlnum (c : Char) : Bool :=
  ('a' ≤ c ∧ c ≤ 'z') ∨ ('0' ≤ c ∧ c ≤ '9')

/-- Literal part of the concurrentInstallMatcher regular expression. -/
def concurrentLiteral : GoStr :=
  "is already in use by container \"".toList

/-- Attempt of the concurrentInstallMatcher at one position: after the
literal, take the maximal run of lowercase-alphanumeric characters and
require it non-empty and terminated by a double quote (the character class
excludes the quote, so maximal munch agrees with the regex engine). -/
def concurrentCaptureAt (cs : GoStr) : Option GoStr :=
  let run := cs.takeWhile isLowerAlnum
  match (cs.drop run.length).head? with
  | some c => if c = '"' ∧ run ≠ [] then some run else none
  | none => none

/-- Embedding of concurrentInstallMatcher.FindStringSubmatch restricted to
the capture group: the leftmost position where the whole pattern matches
wins, mirroring the regex engine's leftmost-match rule. -/
def findConcurrentContainerID : GoStr → Option GoStr
  | [] => none
  | c :: cs =>
    if concurrentLiteral.isPrefixOf (c :: cs) then
      match concurrentCaptureAt ((c :: cs).drop concurrentLiteral.length) with
      | some run => some run
      | none => findConcurrentContainerID cs
    else findConcurrentContainerID cs

/-- Outcome of one container-inspect poll as waitForContainerToStart
consumes it. -/
inductive InspectOutcome where
  | notFound
  | inspectErr (msg : String)
  | state (s : String)
deriving DecidableEq, Repr

/-- Embedding of the maximum number of inspect polls of
waitForContainerToStart. -/
def waitMaxPolls : Nat := 10

/-- Embedding of the inter-poll sleep of waitForContainerToStart, in
milliseconds. -/
def waitPollIntervalMs : Nat := 500

/-- Embedding of the polling loop of waitForContainerToStart.  The fuel
argument mirrors the loop counter i counting down from waitMaxPolls; the
attempt argument indexes the inspect trace; cancellation is sampled at the
sleep following each non-final attempt (the sleep lasts
waitPollIntervalMs).  Running succeeds; Created and Restarting keep
polling; NotFound is tolerated during the registration race; any other
state is fatal; exhausting the polls times out. -/
def waitLoop (inspect : Nat → InspectOutcome) (cancelled : Nat → Bool) :
    Nat → Nat → Except String Unit
  | 0, _ => .error "timed out"
  | i + 1, k =>
    let continuePolling : Except String Unit :=
      if i + 1 > 1 then
        if cancelled k then .error "waiting cancelled"
        else waitLoop inspect cancelled i (k + 1)
      else waitLoop inspect cancelled i (k + 1)
    match inspect k with
    | .inspectErr m => .error ("unable to inspect container: " ++ m)
    | .notFound => continuePolling
    | .state s =>
      if s = "running" then .ok ()
      else if s = "created" ∨ s = "restarting" then continuePolling
      else .error ("container is in unexpected state " ++ s)

/-- Embedding of waitForContainerToStart: poll the container's inspect
state up to waitMaxPolls times. -/
def waitForContainerToStart (inspect : Nat → InspectOutcome) (cancelled : Nat → Bool) :
    Except String Unit :=
  waitLoop inspect cancelled waitMaxPolls 0

/-- Embedding of the create-failure branch of CreateControllerContainer:
when the engine's create error matches the concurrent-install regex, the
captured container id is extracted and that container's inspect trace is
polled; otherwise the create failure is surfaced.  The inspect oracle is
keyed by container id and poll attempt. -/
def handleCreateError (errMsg : GoStr)
    (inspect : GoStr → Nat → InspectOutcome) (cancelled : Nat → Bool) :
    Except String Unit :=
  match findConcurrentContainerID errMsg with
  | some id =>
    match waitForContainerToStart (inspect id) cancelled with
    | .ok () => .ok ()
    | .error e => .error ("failed waiting for concurrent installation: " ++ e)
  | none => .error ("failed to create container docker-model-runner: " ++ String.mk errMsg)

/-! ## Pull progress engine (desktop/desktop.go, fmtProgressBar and Pull) -/

/-- Embedding of the UpdateInterval that Pull configures on its
ProgressBarState, in milliseconds. -/
def pullUpdateIntervalMs : Int := 100

/-- Embedding of the timing fields of ProgressBarState: whether StartTime
has been set, and the LastPrint timestamp (milliseconds). -/
structure ProgressBarState where
  started : Bool
  startTime : Int
  lastPrint : Int
deriving DecidableEq, Repr

/-- Embedding of the throttling prelude of fmtProgressBar: initialise the
timing fields on first use, then suppress the render when the update
interval is positive, less than the interval has elapsed since the last
print, and the current count differs from the total; otherwise record the
print time and render. -/
def fmtProgressBarGate (pbs : ProgressBarState) (now : Int) (current total : Nat) :
    ProgressBarState × Bool :=
  let pbs :=
    if pbs.started = false then
      { started := true, startTime := now, lastPrint := now }
    else pbs
  if 0 < pullUpdateIntervalMs ∧ now - pbs.lastPrint < pullUpdateIntervalMs ∧ current ≠ total then
    (pbs, false)
  else
    ({ pbs with lastPrint := now }, true)

/-- Embedding of one NDJSON progress message of type progress, together
with its arrival time (milliseconds). -/
structure PullProgressEvent where
  time : Int
  layerID : String
  layerCurrent : Nat
  total : Nat
deriving DecidableEq, Repr

/-- Update of the per-layer progress map of Pull, embedded as an
association list keyed by layer id. -/
def updateLayer (m : List (String × Nat)) (id : String) (current : Nat) :
    List (String × Nat) :=
  match m with
  | [] => [(id, current)]
  | (k, v) :: rest =>
    if k = id then (k, current) :: rest else (k, v) :: updateLayer rest id current

/-- Aggregate progress of Pull: the sum of all per-layer current values. -/
def sumLayers (m : List (String × Nat)) : Nat :=
  m.foldl (fun acc kv => acc + kv.2) 0

/-- State of the pull progress loop: the per-layer map and the progress bar
timing state. -/
structure PullLoopState where
  layerProgress : List (String × Nat)
  pbs : ProgressBarState
deriving DecidableEq, Repr

/-- Record of one non-empty rendered progress line: its time and the
aggregate current and total it displayed. -/
structure RenderRecord where
  time : Int
  current : Nat
  total : Nat
deriving DecidableEq, Repr

/-- Embedding of one iteration of the progress case of the Pull loop:
record the layer's current value, recompute the aggregate, and ask the
progress bar gate whether to render. -/
def pullStep (st : PullLoopState) (ev : PullProgressEvent) :
    PullLoopState × Option RenderRecord :=
  let layerProgress := updateLayer st.layerProgress ev.layerID ev.layerCurrent
  let current := sumLayers layerProgress
  let gate := fmtProgressBarGate st.pbs ev.time current ev.total
  ({ layerProgress := layerProgress, pbs := gate.1 },
    if gate.2 then some ⟨ev.time, current, ev.total⟩ else none)

/-- Run of the pull progress loop from a given state, collecting the
non-empty rendered lines in order. -/
def pullRunFrom (st : PullLoopState) : List PullProgressEvent → List RenderRecord
  | [] => []
  | ev :: evs =>
    let r := pullStep st ev
    match r.2 with
    | some rec => rec :: pullRunFrom r.1 evs
    | none => pullRunFrom r.1 evs

/-- Initial state of a single pull: no layers observed, progress bar timing
not yet started. -/
def pullInitState : PullLoopState :=
  { layerProgress := [], pbs := { started := false, startTime := 0, lastPrint := 0 } }

/-- Rendered progress lines of a single pull over a stream of progress
messages. -/
def pullRenders (evs : List PullProgressEvent) : List RenderRecord :=
  pullRunFrom pullInitState evs

/-! ## Compose hook (commands/compose.go) -/

/-- Embedding of the engine kind variants of the model runner context. -/
inductive EngineKind where
  | desktop
  | moby
  | mobyManual
  | cloud
deriving DecidableEq, Repr

/-- Embedding of one JSON-line event the compose hook writes to stdout. -/
structure JsonEvent where
  type : String
  message : String
deriving DecidableEq, Repr

/-- Embedding of the setenv event constructor of compose.go. -/
def setenvEvent (k v : String) : JsonEvent :=
  { type := "setenv", message := k ++ "=" ++ v }

/-- Embedding of the info event constructor of compose.go. -/
def infoEvent (m : String) : JsonEvent :=
  { type := "info", message := m }

/-- Embedding of a model the list endpoint returns, as compose and the
bare-id lookup consume it: its id and its tags. -/
structure ListedModel where
  id : String
  tags : List String
deriving DecidableEq, Repr

/-- Embedding of the environment a compose up run sees: the engine kind,
the manual-endpoint base URL, the standalone runner's gateway endpoint,
and the models already present in the local store. -/
structure ComposeEnv where
  kind : EngineKind
  baseURL : String
  gatewayIP : String
  gatewayPort : Nat
  localModels : List ListedModel
deriving Repr

/-- Modelled from the spec: ModelRunnerContext.URL (the context type is not
under src/) appends the given path to the base URL of the resolved
endpoint. -/
def modelRunnerURL (env : ComposeEnv) (path : String) : String :=
  env.baseURL ++ path

/-- Embedding of the membership test of downloadModelsOnlyIfNotFound: a
requested model is present when it equals a listed model's id or one of
its tags. -/
def modelFound (localModels : List ListedModel) (model : String) : Bool :=
  localModels.any (fun m => model = m.id ∨ m.tags.contains model)

/-- Embedding of downloadModelsOnlyIfNotFound on its success path: for each
requested model absent from the local store, the pull progress callback
emits info events; the function ends by emitting the setenv MODEL event
with the comma-joined requested models. -/
def downloadModelsOnlyIfNotFound (env : ComposeEnv) (models : List String)
    (pullInfos : String → List String) : List JsonEvent :=
  (models.flatMap (fun model =>
    if modelFound env.localModels model then []
    else (pullInfos model).map infoEvent))
  ++ [setenvEvent "MODEL" (String.intercalate "," models)]

/-- Embedding of the per-engine-kind URL emitted by the final switch of the
compose up command. -/
def composeURLForKind (env : ComposeEnv) : String :=
  match env.kind with
  | .desktop => "http://model-runner.docker.internal/engines/v1/"
  | .mobyManual => modelRunnerURL env "/engines/v1/"
  | .cloud => "http://" ++ env.gatewayIP ++ ":" ++ toString env.gatewayPort ++ "/engines/v1"
  | .moby => "http://" ++ env.gatewayIP ++ ":" ++ toString env.gatewayPort ++ "/engines/v1"

/-- Embedding of the stdout event trace of a successful compose up run with
the given requested models, context size and raw runtime flags: the
initial info frames, the download step (which ends with setenv MODEL),
one info frame per configured model, and finally setenv URL per engine
kind. -/
def composeUpTrace (env : ComposeEnv) (models : List String) (ctxSize : Int)
    (rawRuntimeFlags : String) (pullInfos : String → List String) : List JsonEvent :=
  [infoEvent "Initializing model runner..."]
  ++ (if ctxSize ≠ 4096 then [infoEvent ("Setting context size to " ++ toString ctxSize)] else [])
  ++ (if rawRuntimeFlags ≠ "" then
        [infoEvent ("Setting raw runtime flags to " ++ rawRuntimeFlags)] else [])
  ++ downloadModelsOnlyIfNotFound env models pullInfos
  ++ models.map (fun m => infoEvent ("Successfully configured backend for model " ++ m))
  ++ [setenvEvent "URL" (composeURLForKind env)]

/-! ## Bare-id expansion (desktop/desktop.go, fullModelID and Inspect) -/

/-- Result of the bare-id expansion: the expanded id, the not-found error,
or a Go panic from the unguarded ID slice. -/
inductive FullModelIDResult where
  | ok (id : String)
  | notFoundErr (msg : String)
  | panicked
deriving DecidableEq, Repr

/-- Embedding of the Go expression ID[7:19]: the twelve characters at
positions 7 to 18, defined only when the string is long enough. -/
def idShorthand (s : String) : String :=
  String.mk ((s.toList.drop 7).take 12)

/-- Embedding of strings.TrimPrefix(id, the sha256 marker). -/
def trimSha256 (s : String) : String :=
  if goStartsWith s "sha256:" then String.mk (s.toList.drop 7) else s

/-- Embedding of the matching loop of Client.fullModelID over the models
returned by the list endpoint: each model's ID is sliced at positions 7
to 19 with no length guard, so an ID shorter than 19 characters panics
before any of the three match alternatives is evaluated. -/
def fullModelID (ms : List ListedModel) (id : String) : FullModelIDResult :=
  match ms with
  | [] => .notFoundErr ("model with ID " ++ id ++ " not found")
  | m :: rest =>
    if 19 ≤ m.id.length then
      if idShorthand m.id = id ∨ trimSha256 m.id = id ∨ m.id = id then .ok m.id
      else fullModelID rest id
    else .panicked

/-- Embedding of strings.Trim(model, the slash cut set): leading and
trailing slashes removed. -/
def trimSlashes (s : String) : String :=
  String.mk (((s.toList.dropWhile (· = '/')).reverse.dropWhile (· = '/')).reverse)

/-- Embedding of the reference-resolution prelude of Client.Inspect: the
reference is normalized, and when it is non-empty and contains no slash
after trimming, the bare-id expansion runs against the listed models; a
panic there propagates, a lookup failure becomes the invalid-model-name
error, otherwise the reference passes through. -/
def inspectResolve (ms : List ListedModel) (model : String) : FullModelIDResult :=
  let model := normalizeHuggingFaceModelName model
  if model ≠ "" ∧ ¬ (trimSlashes model).toList.contains '/' then
    match fullModelID ms model with
    | .ok id => .ok id
    | .notFoundErr _ => .notFoundErr ("invalid model name: " ++ model)
    | .panicked => .panicked
  else .ok model

/-- Throttle relation between two consecutive rendered progress lines: the
later line is at least the update interval of one hundred milliseconds
after the earlier one, or it displays an aggregate current equal to its
total. -/
def pullRenderP (a b : RenderRecord) : Prop :=
  100 ≤ b.time - a.time ∨ b.current = b.total

instance (a b : RenderRecord) : Decidable (pullRenderP a b) := by
  unfold pullRenderP
  infer_instance

/-- Inspect outcomes that make waitForContainerToStart keep polling: the
tolerated not-found race window and the Created and Restarting states. -/
def keepPolling (o : InspectOutcome) : Prop :=
  o = .notFound ∨ o = .state "created" ∨ o = .state "restarting"

instance (o : InspectOutcome) : Decidable (keepPolling o) := by
  unfold keepPolling
  infer_instance

/-- Concrete compose environment for the event-order check: a Desktop
engine whose local store already holds the requested model. -/
def composeCounterEnv : ComposeEnv :=
  { kind := .desktop, baseURL := "", gatewayIP := "", gatewayPort := 0,
    localModels := [{ id := "sha256:abc", tags := ["ai/smollm2"] }] }

/-- Reachable history state of one hundred identical single-character
lines with the matching persisted file (the state after appending the same
line one hundred times). -/
def fullConstHistory : HistoryState :=
  { history := List.replicate 100 ['a'],
    file := some (History.save (List.replicate 100 ['a'])) }

/-! ## Helper lemmas -/

/-- A character list free of newlines splits to itself as a single field. -/
theorem goSplitNL_noNL (s : GoStr) (hs : '\n' ∉ s) : goSplitNL s = [s] := by
  induction s with
  | nil => rfl
  | cons c cs ih =>
    have hc : ¬ c = '\n' := fun hcc => hs (by simp [hcc])
    have hcs : '\n' ∉ cs := fun hm => hs (by simp [hm])
    simp only [goSplitNL, if_neg hc, ih hcs]

/-- Splitting a newline-free field, a separator, and a remainder yields the
field followed by the split of the remainder. -/
theorem goSplitNL_append (s r : GoStr) (hs : '\n' ∉ s) :
    goSplitNL (s ++ '\n' :: r) = s :: goSplitNL r := by
  induction s with
  | nil => simp [goSplitNL]
  | cons c cs ih =>
    have hc : ¬ c = '\n' := fun hcc => hs (by simp [hcc])
    have hcs : '\n' ∉ cs := fun hm => hs (by simp [hm])
    simp only [List.cons_append, goSplitNL, if_neg hc]
    show (match goSplitNL (cs ++ '\n' :: r) with
      | [] => [[c]]
      | r :: rs => (c :: r) :: rs) = (c :: cs) :: goSplitNL r
    rw [ih hcs]

/-- The newline join of a non-empty list of non-empty fields is
non-empty. -/
theorem goJoinNL_ne_nil (h : List GoStr) (hne : h ≠ [])
    (hok : ∀ s ∈ h, s ≠ []) : goJoinNL h ≠ [] := by
  match h with
  | [s] =>
    simpa [goJoinNL] using hok s (by simp)
  | s :: t :: rest =>
    simp only [goJoinNL]
    rcases hok s (by simp) with hs
    cases s with
    | nil => exact absurd rfl hs
    | cons a as => simp

/-- The newline join of non-empty newline-free fields does not end in a
newline. -/
theorem goJoinNL_getLast_ne (h : List GoStr) (hne : h ≠ [])
    (hok : ∀ s ∈ h, s ≠ [] ∧ '\n' ∉ s) :
    (goJoinNL h).getLast? ≠ some '\n' := by
  match h with
  | [s] =>
    obtain ⟨hsne, hsfree⟩ := hok s (by simp)
    simp only [goJoinNL]
    intro hlast
    obtain ⟨hsne2, heq⟩ := List.mem_getLast?_eq_getLast (show '\n' ∈ s.getLast? from hlast)
    exact hsfree (heq ▸ List.getLast_mem hsne2)
  | s :: t :: rest =>
    have hjoin : goJoinNL (t :: rest) ≠ [] :=
      goJoinNL_ne_nil (t :: rest) (by simp) (fun x hx => (hok x (by simp [hx])).1)
    have ih : (goJoinNL (t :: rest)).getLast? ≠ some '\n' :=
      goJoinNL_getLast_ne (t :: rest) (by simp) (fun x hx => hok x (by simp [hx]))
    show (goJoinNL (s :: t :: rest)).getLast? ≠ some '\n'
    simp only [goJoinNL]
    rw [List.getLast?_append_of_ne_nil _ (by simp)]
    rcases hj : goJoinNL (t :: rest) with _ | ⟨b, bs⟩
    · exact absurd hj hjoin
    · rw [List.getLast?_cons_cons]
      rw [hj] at ih
      exact ih

/-- Splitting the newline join of a non-empty list of newline-free fields
recovers the list. -/
theorem goSplitNL_goJoinNL (h : List GoStr) (hne : h ≠ [])
    (hfree : ∀ s ∈ h, '\n' ∉ s) :
    goSplitNL (goJoinNL h) = h := by
  match h with
  | [s] =>
    simpa [goJoinNL] using goSplitNL_noNL s (hfree s (by simp))
  | s :: t :: rest =>
    have ih : goSplitNL (goJoinNL (t :: rest)) = t :: rest :=
      goSplitNL_goJoinNL (t :: rest) (by simp) (fun x hx => hfree x (by simp [hx]))
    show goSplitNL (goJoinNL (s :: t :: rest)) = s :: t :: rest
    simp only [goJoinNL]
    rw [goSplitNL_append s _ (hfree s (by simp)), ih]

/-- Associativity of string append, used to align the two chat-step
formulations. -/
theorem strAppendAssoc (a b c : String) : (a ++ b) ++ c = a ++ (b ++ c) := by
  rcases a with ⟨da⟩
  rcases b with ⟨db⟩
  rcases c with ⟨dc⟩
  show String.mk ((da ++ db) ++ dc) = String.mk (da ++ (db ++ dc))
  rw [List.append_assoc]

/-- The wait loop succeeds as soon as an inspect poll reports Running,
provided every earlier poll kept it polling and no cancellation fired. -/
theorem waitLoop_ok (inspect : Nat → InspectOutcome) (cancelled : Nat → Bool) :
    ∀ (fuel k n : Nat), k ≤ n → n < k + fuel →
      (∀ j, k ≤ j → j < n → keepPolling (inspect j)) →
      (∀ j, k ≤ j → j < n → cancelled j = false) →
      inspect n = .state "running" →
      waitLoop inspect cancelled fuel k = .ok () := by
  intro fuel
  induction fuel with
  | zero =>
    intro k n hkn hlt
    omega
  | succ i ih =>
    intro k n hkn hlt hpoll hcanc hrun
    by_cases hk : k = n
    · subst hk
      simp [waitLoop, hrun]
    · have hkn' : k < n := lt_of_le_of_ne hkn hk
      have hi : i + 1 > 1 := by omega
      have hck : cancelled k = false := hcanc k le_rfl hkn'
      have hrec : waitLoop inspect cancelled i (k + 1) = .ok () :=
        ih (k + 1) n (by omega) (by omega)
          (fun j h1 h2 => hpoll j (by omega) h2)
          (fun j h1 h2 => hcanc j (by omega) h2) hrun
      rcases hpoll k le_rfl hkn' with hnf | hcr | hre
      · simp [waitLoop, hnf, hi, hck, hrec]
      · simp [waitLoop, hcr, hi, hck, hrec]
      · simp [waitLoop, hre, hi, hck, hrec]

/-- The wait loop fails as soon as an inspect poll reports a state other
than Running, Created or Restarting, provided every earlier poll kept it
polling and no cancellation fired. -/
theorem waitLoop_fatal (inspect : Nat → InspectOutcome) (cancelled : Nat → Bool) :
    ∀ (fuel k n : Nat) (s : String), k ≤ n → n < k + fuel →
      (∀ j, k ≤ j → j < n → keepPolling (inspect j)) →
      (∀ j, k ≤ j → j < n → cancelled j = false) →
      inspect n = .state s → s ≠ "running" → s ≠ "created" → s ≠ "restarting" →
      waitLoop inspect cancelled fuel k
        = .error ("container is in unexpected state " ++ s) := by
  intro fuel
  induction fuel with
  | zero =>
    intro k n s hkn hlt
    omega
  | succ i ih =>
    intro k n s hkn hlt hpoll hcanc hstate hs1 hs2 hs3
    by_cases hk : k = n
    · subst hk
      simp [waitLoop, hstate, hs1, hs2, hs3]
    · have hkn' : k < n := lt_of_le_of_ne hkn hk
      have hi : i + 1 > 1 := by omega
      have hck : cancelled k = false := hcanc k le_rfl hkn'
      have hrec : waitLoop inspect cancelled i (k + 1)
          = .error ("container is in unexpected state " ++ s) :=
        ih (k + 1) n s (by omega) (by omega)
          (fun j h1 h2 => hpoll j (by omega) h2)
          (fun j h1 h2 => hcanc j (by omega) h2) hstate hs1 hs2 hs3
      rcases hpoll k le_rfl hkn' with hnf | hcr | hre
      · simp [waitLoop, hnf, hi, hck, hrec]
      · simp [waitLoop, hcr, hi, hck, hrec]
      · simp [waitLoop, hre, hi, hck, hrec]

/-- The wait loop aborts with the cancellation error at the first sleep
whose context is done, provided every poll up to that point kept it
polling. -/
theorem waitLoop_cancelled (inspect : Nat → InspectOutcome) (cancelled : Nat → Bool) :
    ∀ (fuel k n : Nat), k ≤ n → n + 1 < k + fuel →
      (∀ j, k ≤ j → j ≤ n → keepPolling (inspect j)) →
      (∀ j, k ≤ j → j < n → cancelled j = false) →
      cancelled n = true →
      waitLoop inspect cancelled fuel k = .error "waiting cancelled" := by
  intro fuel
  induction fuel with
  | zero =>
    intro k n hkn hlt
    omega
  | succ i ih =>
    intro k n hkn hlt hpoll hcanc hdone
    have hi : i + 1 > 1 := by omega
    by_cases hk : k = n
    · subst hk
      rcases hpoll k le_rfl le_rfl with hnf | hcr | hre
      · simp [waitLoop, hnf, hi, hdone]
      · simp [waitLoop, hcr, hi, hdone]
      · simp [waitLoop, hre, hi, hdone]
    · have hkn' : k < n := lt_of_le_of_ne hkn hk
      have hck : cancelled k = false := hcanc k le_rfl hkn'
      have hrec : waitLoop inspect cancelled i (k + 1) = .error "waiting cancelled" :=
        ih (k + 1) n (by omega) (by omega)
          (fun j h1 h2 => hpoll j (by omega) h2)
          (fun j h1 h2 => hcanc j (by omega) h2) hdone
      rcases hpoll k le_rfl (le_of_lt hkn') with hnf | hcr | hre
      · simp [waitLoop, hnf, hi, hck, hrec]
      · simp [waitLoop, hcr, hi, hck, hrec]
      · simp [waitLoop, hre, hi, hck, hrec]

/-- On an already-started progress bar state, the gate leaves the state
untouched and suppresses the render exactly when less than the interval
has passed and the aggregate differs from the total. -/
theorem gate_started (pbs : ProgressBarState) (now : Int) (current total : Nat)
    (h : pbs.started = true) :
    fmtProgressBarGate pbs now current total =
      if 0 < pullUpdateIntervalMs ∧ now - pbs.lastPrint < pullUpdateIntervalMs ∧ current ≠ total
      then (pbs, false)
      else ({ pbs with lastPrint := now }, true) := by
  unfold fmtProgressBarGate
  rw [h]
  simp [h]

/-- On a fresh progress bar state, the gate initialises the timing fields
to the current instant and renders exactly when the aggregate equals the
total. -/
theorem gate_fresh (pbs : ProgressBarState) (now : Int) (current total : Nat)
    (h : pbs.started = false) :
    fmtProgressBarGate pbs now current total =
      if current = total
      then ({ started := true, startTime := now, lastPrint := now }, true)
      else ({ started := true, startTime := now, lastPrint := now }, false) := by
  unfold fmtProgressBarGate
  rw [h]
  by_cases hct : current = total <;>
    simp [pullUpdateIntervalMs, hct]

/-- Invariant of the pull render loop from a started state: the rendered
lines are pairwise throttled, and the first rendered line is itself
throttled against the state's last print time. -/
theorem pullRunFrom_chain :
    ∀ (evs : List PullProgressEvent) (st : PullLoopState), st.pbs.started = true →
      List.Chain' pullRenderP (pullRunFrom st evs)
      ∧ ∀ r ∈ (pullRunFrom st evs).head?,
          100 ≤ r.time - st.pbs.lastPrint ∨ r.current = r.total := by
  intro evs
  induction evs with
  | nil =>
    intro st hstart
    constructor
    · simp [pullRunFrom]
    · simp [pullRunFrom]
  | cons ev evs ih =>
    intro st hstart
    have hgate := gate_started st.pbs ev.time
      (sumLayers (updateLayer st.layerProgress ev.layerID ev.layerCurrent)) ev.total hstart
    by_cases hcond : 0 < pullUpdateIntervalMs
        ∧ ev.time - st.pbs.lastPrint < pullUpdateIntervalMs
        ∧ sumLayers (updateLayer st.layerProgress ev.layerID ev.layerCurrent) ≠ ev.total
    · have hstep : pullStep st ev =
          ({ layerProgress := updateLayer st.layerProgress ev.layerID ev.layerCurrent,
             pbs := st.pbs }, none) := by
        unfold pullStep
        dsimp only
        rw [hgate, if_pos hcond]
        simp
      have hih := ih { layerProgress := updateLayer st.layerProgress ev.layerID ev.layerCurrent,
                       pbs := st.pbs } hstart
      constructor
      · simp only [pullRunFrom, hstep]
        exact hih.1
      · simp only [pullRunFrom, hstep]
        exact hih.2
    · have hstep : pullStep st ev =
          ({ layerProgress := updateLayer st.layerProgress ev.layerID ev.layerCurrent,
             pbs := { st.pbs with lastPrint := ev.time } },
           some { time := ev.time,
                  current := sumLayers (updateLayer st.layerProgress ev.layerID ev.layerCurrent),
                  total := ev.total }) := by
        unfold pullStep
        dsimp only
        rw [hgate, if_neg hcond]
        simp
      have hih := ih { layerProgress := updateLayer st.layerProgress ev.layerID ev.layerCurrent,
                       pbs := { st.pbs with lastPrint := ev.time } } hstart
      have hfirst : 100 ≤ ev.time - st.pbs.lastPrint
          ∨ sumLayers (updateLayer st.layerProgress ev.layerID ev.layerCurrent) = ev.total := by
        by_cases hd : ev.time - st.pbs.lastPrint < 100
        · right
          by_contra hne
          exact hcond ⟨by norm_num [pullUpdateIntervalMs],
            by simpa [pullUpdateIntervalMs] using hd, hne⟩
        · left
          omega
      constructor
      · simp only [pullRunFrom, hstep]
        rw [List.chain'_cons']
        refine ⟨?_, hih.1⟩
        intro y hy
        have := hih.2 y hy
        simpa [pullRenderP] using this
      · simp only [pullRunFrom, hstep]
        intro r hr
        simp only [List.head?_cons, Option.mem_def, Option.some.injEq] at hr
        subst hr
        exact hfirst

/-! ## Claim theorems -/

/-- C1: for every reference beginning with the HuggingFace marker,
normalize equals the lowercase of the reference; every other reference is
unchanged; and Pull places the normalized reference in the From field of
the outbound request body. -/
theorem c1_normalize_and_pull :
    ∀ x : String,
      (goStartsWith x "hf.co/" = true → normalizeHuggingFaceModelName x = goToLower x)
      ∧ (goStartsWith x "hf.co/" = false → normalizeHuggingFaceModelName x = x)
      ∧ ∀ ig : Bool, (pullRequestBody x ig).fromRef = normalizeHuggingFaceModelName x := by
  intro x
  refine ⟨fun h => ?_, fun h => ?_, fun ig => ?_⟩
  · simp [normalizeHuggingFaceModelName, h]
  · simp [normalizeHuggingFaceModelName, h]
  · rfl

/-- Witness for C1 at the spec's literal scenario inputs. -/
theorem c1_witness :
    normalizeHuggingFaceModelName "hf.co/Bartowski/Llama-3.2-1B-Instruct-GGUF"
        = goToLower "hf.co/Bartowski/Llama-3.2-1B-Instruct-GGUF"
    ∧ normalizeHuggingFaceModelName "docker.io/library/llama2" = "docker.io/library/llama2"
    ∧ (pullRequestBody "hf.co/Bartowski/Llama-3.2-1B-Instruct-GGUF" false).fromRef
        = normalizeHuggingFaceModelName "hf.co/Bartowski/Llama-3.2-1B-Instruct-GGUF" :=
  ⟨(c1_normalize_and_pull "hf.co/Bartowski/Llama-3.2-1B-Instruct-GGUF").1 (by decide),
   (c1_normalize_and_pull "docker.io/library/llama2").2.1 (by decide),
   (c1_normalize_and_pull "hf.co/Bartowski/Llama-3.2-1B-Instruct-GGUF").2.2 false⟩

/-- C2: the chat rendering step agrees with the three-state machine the
specification describes, and the split-reasoning scenario (reasoning
fragment then content fragment) renders, ANSI styling ignored, as the
Thinking header, the reasoning text, a blank line, and the content. -/
theorem c2_chat_state_machine :
    (∀ (s : ChatPrinterState) (c : ChatChunk), processChunk s c = chatSpecStep s c)
    ∧ renderChat
        [{ choices := [{ delta := { reasoningContent := "Let me think…", content := "" } }] },
         { choices := [{ delta := { reasoningContent := "", content := "Hello" } }] }]
      = "Thinking:\nLet me think…\n\nHello" := by
  constructor
  · intro s c
    rcases c with ⟨choices⟩
    rcases choices with _ | ⟨⟨⟨r, co⟩⟩, rest⟩
    · rfl
    · by_cases hr : r = "" <;> by_cases hc : co = "" <;>
        cases s <;>
        simp only [processChunk, chatSpecStep, hr, hc, ne_eq, not_true_eq_false,
          not_false_eq_true, if_true, if_false, ite_true, ite_false, reduceIte,
          reduceCtorEq, Prod.mk.injEq, strAppendAssoc] <;>
        simp [strAppendAssoc]
  · decide

/-- C6: every runner-client request that receives a 503 response yields the
ServiceUnavailable sentinel with no response, and Status maps that
sentinel from the models-list probe to a not-running status with no
error. -/
theorem c6_service_unavailable :
    (∀ (t : Transport) (method path : String) (resp : HTTPResponse),
        t method path = .ok resp → resp.statusCode = 503 →
        doRequestWithAuth t method path = .error .serviceUnavailable)
    ∧ (∀ (t : Transport) (resp : HTTPResponse),
        t "GET" modelsRoutePath = .ok resp → resp.statusCode = 503 →
        clientStatus t = { running := false, status := "", error := none }) := by
  constructor
  · intro t method path resp ht hcode
    simp [doRequestWithAuth, ht, hcode]
  · intro t resp ht hcode
    simp [clientStatus, doRequest, doRequestWithAuth, handleQueryError, ht, hcode]

/-- Witness for C6 on a concrete transport that answers 503 everywhere. -/
theorem c6_witness :
    doRequestWithAuth (fun _ _ => .ok { statusCode := 503, body := "" }) "GET" modelsRoutePath
        = .error .serviceUnavailable
    ∧ clientStatus (fun _ _ => .ok { statusCode := 503, body := "" })
        = { running := false, status := "", error := none } :=
  ⟨c6_service_unavailable.1 (fun _ _ => .ok { statusCode := 503, body := "" })
      "GET" modelsRoutePath { statusCode := 503, body := "" } rfl rfl,
   c6_service_unavailable.2 (fun _ _ => .ok { statusCode := 503, body := "" })
      { statusCode := 503, body := "" } rfl rfl⟩

/-- C10: the bare-id expansion slices every listed ID at positions 7 to 19
with no length guard, so a listed model whose ID is shorter than 19
characters makes the lookup (and the Inspect resolution that runs it on a
slash-free reference) panic, while under the precondition that every
listed ID has at least 19 characters the lookup never panics. -/
theorem c10_fullModelID_panic :
    fullModelID [{ id := "sha256:short", tags := [] }] "abcdefabcdef" = .panicked
    ∧ inspectResolve [{ id := "sha256:short", tags := [] }] "abcdefabcdef" = .panicked
    ∧ (∀ (ms : List ListedModel) (id : String),
        (∀ m ∈ ms, 19 ≤ m.id.length) → fullModelID ms id ≠ .panicked) := by
  refine ⟨by decide, by decide, ?_⟩
  intro ms id hlen
  induction ms with
  | nil => simp [fullModelID]
  | cons m rest ih =>
    have hm : 19 ≤ m.id.length := hlen m (by simp)
    have hrest : ∀ m ∈ rest, 19 ≤ m.id.length := fun x hx => hlen x (by simp [hx])
    simp only [fullModelID, if_pos hm]
    split
    · simp
    · exact ih hrest

/-- Witness for C10: the no-panic conclusion at a concrete long-ID
listing. -/
theorem c10_witness :
    fullModelID [{ id := "sha256:0123456789abcdef0123", tags := [] }] "zzz" ≠ .panicked :=
  c10_fullModelID_panic.2.2 [{ id := "sha256:0123456789abcdef0123", tags := [] }] "zzz"
    (by intro m hm; simp at hm; subst hm; decide)

/-- C3 counterexample: Next called with historyIndex equal to minus one on
the non-empty history of one entry returns the index minus one, which lies
outside the valid range, even though the history is not empty, so the
claimed exception does not apply. -/
theorem c3_counterexample :
    History.Next [['a']] [] 0 (-1) = some { text := [], index := -1, cursor := 0 }
    ∧ ¬ ((0 : Int) ≤ -1)
    ∧ ([['a']] : List GoStr) ≠ [] := by
  refine ⟨by decide, by decide, by decide⟩

/-- C3 amended: for every history and every input whose history index lies
in the reachable range from minus one to length minus one, Previous and
Next return without panicking, and the returned index lies inside the
valid range except that Previous passes the input through unchanged on an
empty history with index minus one, and Next passes the input through
unchanged whenever the index is minus one, also on a non-empty history. -/
theorem c3_navigation_amended :
    ∀ (h : List GoStr) (text : GoStr) (cursor idx : Int),
      -1 ≤ idx → idx < (h.length : Int) →
      (∃ r, History.Previous h text cursor idx = some r ∧
        ((0 ≤ r.index ∧ r.index < (h.length : Int))
          ∨ (h = [] ∧ r = { text := text, index := idx, cursor := cursor })))
      ∧ (∃ r, History.Next h text cursor idx = some r ∧
        ((0 ≤ r.index ∧ r.index < (h.length : Int))
          ∨ (idx = -1 ∧ r = { text := text, index := idx, cursor := cursor }))) := by
  intro h text cursor idx hlo hhi
  constructor
  · by_cases hemp : h.length = 0
    · have hidx : idx = -1 := by omega
      refine ⟨{ text := text, index := idx, cursor := cursor }, ?_,
        Or.inr ⟨List.length_eq_zero.mp hemp, rfl⟩⟩
      unfold History.Previous
      rw [if_neg (fun hc => by omega : ¬ (idx = -1 ∧ 0 < h.length)),
        if_neg (fun hc => by omega : ¬ (0 < idx ∧ 0 < h.length))]
    · have hlen : 0 < h.length := Nat.pos_of_ne_zero hemp
      have hlenI : (0 : Int) < (h.length : Int) := by exact_mod_cast hlen
      by_cases hneg : idx = -1
      · have hbound : ((h.length : Int) - 1).toNat < h.length := by omega
        obtain ⟨item, hitem⟩ : ∃ item, h.get? ((h.length : Int) - 1).toNat = some item :=
          ⟨_, List.get?_eq_get hbound⟩
        refine ⟨{ text := item, index := (h.length : Int) - 1, cursor := (item.length : Int) },
          ?_, Or.inl ⟨?_, ?_⟩⟩
        · unfold History.Previous
          have hinner :
              (if idx = -1 ∧ 0 < h.length then ((h.length : Nat) : Int) else idx)
                = ((h.length : Nat) : Int) := if_pos ⟨hneg, hlen⟩
          rw [hinner, if_pos ⟨hlenI, hlen⟩]
          simp only [List.get?_eq_getElem?] at hitem
          simp at hitem ⊢
          simp [hitem]
        · show (0 : Int) ≤ (h.length : Int) - 1
          omega
        · show (h.length : Int) - 1 < (h.length : Int)
          omega
      · have hnand : ¬ (idx = -1 ∧ 0 < h.length) := fun hc => hneg hc.1
        by_cases hpos : 0 < idx
        · have hbound : (idx - 1).toNat < h.length := by omega
          obtain ⟨item, hitem⟩ : ∃ item, h.get? (idx - 1).toNat = some item :=
            ⟨_, List.get?_eq_get hbound⟩
          refine ⟨{ text := item, index := idx - 1, cursor := (item.length : Int) },
            ?_, Or.inl ⟨?_, ?_⟩⟩
          · unfold History.Previous
            rw [if_neg hnand, if_pos ⟨hpos, hlen⟩]
            simp only [List.get?_eq_getElem?] at hitem
            simp at hitem ⊢
            simp [hitem]
          · show (0 : Int) ≤ idx - 1
            omega
          · show idx - 1 < (h.length : Int)
            omega
        · refine ⟨{ text := text, index := idx, cursor := cursor }, ?_, Or.inl ⟨?_, ?_⟩⟩
          · unfold History.Previous
            rw [if_neg hnand, if_neg (fun hc => hpos hc.1 : ¬ (0 < idx ∧ 0 < h.length))]
          · show (0 : Int) ≤ idx
            omega
          · show idx < (h.length : Int)
            exact hhi
  · by_cases hguard : idx < (h.length : Int) - 1 ∧ 0 ≤ idx
    · have hbound : (idx + 1).toNat < h.length := by omega
      obtain ⟨item, hitem⟩ : ∃ item, h.get? (idx + 1).toNat = some item :=
        ⟨_, List.get?_eq_get hbound⟩
      refine ⟨{ text := item, index := idx + 1, cursor := (item.length : Int) },
        ?_, Or.inl ⟨?_, ?_⟩⟩
      · unfold History.Next
        rw [if_pos hguard]
        simp only [List.get?_eq_getElem?] at hitem
        simp at hitem ⊢
        simp [hitem]
      · show (0 : Int) ≤ idx + 1
        omega
      · show idx + 1 < (h.length : Int)
        omega
    · refine ⟨{ text := text, index := idx, cursor := cursor }, ?_, ?_⟩
      · unfold History.Next
        rw [if_neg hguard]
      · by_cases hneg : idx = -1
        · exact Or.inr ⟨hneg, rfl⟩
        · refine Or.inl ⟨?_, ?_⟩
          · show (0 : Int) ≤ idx
            omega
          · show idx < (h.length : Int)
            exact hhi

/-- Witness for C3 amended at a concrete one-entry history. -/
theorem c3_witness :
    (∃ r, History.Previous [['a']] [] 0 (-1) = some r ∧
        ((0 ≤ r.index ∧ r.index < ((1 : Nat) : Int))
          ∨ ([['a']] = ([] : List GoStr) ∧ r = { text := [], index := -1, cursor := 0 })))
    ∧ (∃ r, History.Next [['a']] [] 0 (-1) = some r ∧
        ((0 ≤ r.index ∧ r.index < ((1 : Nat) : Int))
          ∨ ((-1 : Int) = -1 ∧ r = { text := [], index := -1, cursor := 0 }))) := by
  have := c3_navigation_amended [['a']] [] 0 (-1) (by decide) (by decide)
  simpa using this

set_option maxRecDepth 4000 in
/-- C4 counterexample: appending the line of one letter a to the reachable
full history of one hundred copies of that line leaves the in-memory list,
the persisted file and the error all unchanged, although the line contains
no newline, so the claimed only-if direction fails. -/
theorem c4_counterexample :
    History.Append fullConstHistory ['a'] = fullConstHistory
    ∧ goContainsNL ['a'] = false := by
  exact ⟨by decide, by decide⟩

/-- C4 amended: Append is a no-op whenever the line contains a newline;
otherwise the new history is the last-MaxHistoryLength trim of the old
history extended by the line (so its length is at most MaxHistoryLength),
and the persisted file is its join — which in the degenerate case of a
full history of lines all equal to the appended line coincides with the
unchanged old state. -/
theorem c4_append_amended :
    ∀ (st : HistoryState) (line : GoStr),
      (goContainsNL line = true → History.Append st line = st)
      ∧ (goContainsNL line = false →
          (History.Append st line).history.length ≤ MaxHistoryLength
          ∧ (History.Append st line).file
              = some (History.save (History.Append st line).history)) := by
  intro st line
  constructor
  · intro hnl
    simp [History.Append, hnl]
  · intro hnl
    simp only [History.Append, hnl, Bool.false_eq_true, if_false]
    constructor
    · by_cases hlong : (st.history ++ [line]).length > MaxHistoryLength
      · simp only [if_pos hlong, List.length_drop]
        omega
      · simp only [if_neg hlong]
        omega
    · trivial

/-- Witness for C4 amended at a newline-carrying and a plain line. -/
theorem c4_witness :
    History.Append { history := [], file := none } ['\n'] = { history := [], file := none }
    ∧ (History.Append { history := [], file := none } ['a']).history.length
        ≤ MaxHistoryLength :=
  ⟨(c4_append_amended { history := [], file := none } ['\n']).1 (by decide),
   ((c4_append_amended { history := [], file := none } ['a']).2 (by decide)).1⟩

/-- C5 counterexample: the in-memory history of the line a followed by the
empty line saves as the letter a and a trailing newline, which load trims
and reads back as the single line a, not the duplicate-free original. -/
theorem c5_counterexample :
    History.load (some (History.save [['a'], []])) ≠ dedupFirst [['a'], []] := by
  decide

/-- C5 amended: for every non-empty in-memory history all of whose lines
are non-empty and newline-free (the lines Append accepts and persists),
loading the saved file yields the history with duplicate lines removed,
the first occurrence of each line winning. -/
theorem c5_load_save_amended :
    ∀ h : List GoStr, h ≠ [] → (∀ s ∈ h, s ≠ [] ∧ '\n' ∉ s) →
      History.load (some (History.save h)) = dedupFirst h := by
  intro h hne hok
  have htrim : goTrimSuffixNL (goJoinNL h) = goJoinNL h := by
    unfold goTrimSuffixNL
    rw [if_neg (goJoinNL_getLast_ne h hne hok)]
  show dedupFirst (goSplitNL (goTrimSuffixNL (goJoinNL h))) = dedupFirst h
  rw [htrim, goSplitNL_goJoinNL h hne (fun s hs => (hok s hs).2)]

/-- Witness for C5 amended at a three-line history with one duplicate. -/
theorem c5_witness :
    History.load (some (History.save [['a'], ['b'], ['a']]))
      = dedupFirst [['a'], ['b'], ['a']] :=
  c5_load_save_amended [['a'], ['b'], ['a']] (by decide) (by decide)

/-- C7: when container creation fails with a message matching the
concurrent-install regex, the conflicting container id is extracted from
the capture group and that container's inspect state is polled up to ten
times; the call returns no error once a poll reports Running with only
keep-polling outcomes (Created, Restarting, tolerated NotFound) before it
and no cancellation; a poll reporting any other state is fatal;
cancellation at a sleep aborts with the cancellation error; and a create
failure not matching the regex is surfaced as an error.  The first
conjunct records the polling budget and inter-poll sleep of the
embedding. -/
theorem c7_concurrent_install :
    (waitMaxPolls = 10 ∧ waitPollIntervalMs = 500)
    ∧ (∀ (msg id : GoStr) (inspect : GoStr → Nat → InspectOutcome)
        (cancelled : Nat → Bool) (n : Nat),
        findConcurrentContainerID msg = some id →
        n < waitMaxPolls →
        (∀ j, j < n → keepPolling (inspect id j)) →
        (∀ j, j < n → cancelled j = false) →
        inspect id n = .state "running" →
        handleCreateError msg inspect cancelled = .ok ())
    ∧ (∀ (msg id : GoStr) (inspect : GoStr → Nat → InspectOutcome)
        (cancelled : Nat → Bool) (n : Nat) (s : String),
        findConcurrentContainerID msg = some id →
        n < waitMaxPolls →
        (∀ j, j < n → keepPolling (inspect id j)) →
        (∀ j, j < n → cancelled j = false) →
        inspect id n = .state s → s ≠ "running" → s ≠ "created" → s ≠ "restarting" →
        handleCreateError msg inspect cancelled
          = .error ("failed waiting for concurrent installation: "
              ++ ("container is in unexpected state " ++ s)))
    ∧ (∀ (msg id : GoStr) (inspect : GoStr → Nat → InspectOutcome)
        (cancelled : Nat → Bool) (n : Nat),
        findConcurrentContainerID msg = some id →
        n + 1 < waitMaxPolls →
        (∀ j, j ≤ n → keepPolling (inspect id j)) →
        (∀ j, j < n → cancelled j = false) →
        cancelled n = true →
        handleCreateError msg inspect cancelled
          = .error ("failed waiting for concurrent installation: " ++ "waiting cancelled"))
    ∧ (∀ (msg : GoStr) (inspect : GoStr → Nat → InspectOutcome) (cancelled : Nat → Bool),
        findConcurrentContainerID msg = none →
        handleCreateError msg inspect cancelled
          = .error ("failed to create container docker-model-runner: " ++ String.mk msg)) := by
  refine ⟨⟨rfl, rfl⟩, ?_, ?_, ?_, ?_⟩
  · intro msg id inspect cancelled n hmatch hn hpoll hcanc hrun
    unfold handleCreateError
    rw [hmatch]
    dsimp only
    rw [show waitForContainerToStart (inspect id) cancelled = .ok () from
      waitLoop_ok (inspect id) cancelled waitMaxPolls 0 n (Nat.zero_le n) (by omega)
        (fun j _ h2 => hpoll j h2) (fun j _ h2 => hcanc j h2) hrun]
  · intro msg id inspect cancelled n s hmatch hn hpoll hcanc hstate hs1 hs2 hs3
    unfold handleCreateError
    rw [hmatch]
    dsimp only
    rw [show waitForContainerToStart (inspect id) cancelled
        = .error ("container is in unexpected state " ++ s) from
      waitLoop_fatal (inspect id) cancelled waitMaxPolls 0 n s (Nat.zero_le n) (by omega)
        (fun j _ h2 => hpoll j h2) (fun j _ h2 => hcanc j h2) hstate hs1 hs2 hs3]
  · intro msg id inspect cancelled n hmatch hn hpoll hcanc hdone
    unfold handleCreateError
    rw [hmatch]
    dsimp only
    rw [show waitForContainerToStart (inspect id) cancelled = .error "waiting cancelled" from
      waitLoop_cancelled (inspect id) cancelled waitMaxPolls 0 n (Nat.zero_le n) (by omega)
        (fun j _ h2 => hpoll j h2) (fun j _ h2 => hcanc j h2) hdone]
  · intro msg inspect cancelled hnone
    unfold handleCreateError
    rw [hnone]

/-- Witness for C7 at the spec's concurrent-install scenario: the engine
reports the conflict for container abc123, whose inspect trace reads
Created then Running with no cancellation. -/
theorem c7_witness :
    handleCreateError
      ("conflict: is already in use by container \"abc123\". retry".toList)
      (fun _ k => if k = 0 then .state "created" else .state "running")
      (fun _ => false) = .ok () :=
  c7_concurrent_install.2.1
    ("conflict: is already in use by container \"abc123\". retry".toList)
    ("abc123".toList)
    (fun _ k => if k = 0 then .state "created" else .state "running")
    (fun _ => false) 1 (by decide) (by decide)
    (by decide) (by decide) (by decide)

/-- A two-element list is a sublist of any list that contains its elements
in order. -/
theorem sublist_pair {α : Type} (x y : α) (A B : List α) :
    List.Sublist [x, y] (A ++ x :: (B ++ [y])) := by
  induction A with
  | nil => exact List.Sublist.cons₂ x (List.sublist_append_right B [y])
  | cons a A ih => exact List.Sublist.cons a ih

/-- C8: during a single pull, the progress engine never produces two
consecutive non-empty rendered lines less than one hundred milliseconds
apart, except that a render is always permitted when the aggregate current
equals the reported total. -/
theorem c8_pull_render_throttle :
    ∀ evs : List PullProgressEvent, List.Chain' pullRenderP (pullRenders evs) := by
  intro evs
  cases evs with
  | nil => simp [pullRenders, pullRunFrom]
  | cons ev evs =>
    have hgate := gate_fresh pullInitState.pbs ev.time
      (sumLayers (updateLayer pullInitState.layerProgress ev.layerID ev.layerCurrent))
      ev.total rfl
    by_cases hct : sumLayers (updateLayer pullInitState.layerProgress ev.layerID ev.layerCurrent)
        = ev.total
    · have hstep : pullStep pullInitState ev =
          ({ layerProgress := updateLayer pullInitState.layerProgress ev.layerID ev.layerCurrent,
             pbs := { started := true, startTime := ev.time, lastPrint := ev.time } },
           some { time := ev.time,
                  current := sumLayers
                    (updateLayer pullInitState.layerProgress ev.layerID ev.layerCurrent),
                  total := ev.total }) := by
        unfold pullStep
        dsimp only
        rw [hgate, if_pos hct]
        simp
      have hih := pullRunFrom_chain evs
        { layerProgress := updateLayer pullInitState.layerProgress ev.layerID ev.layerCurrent,
          pbs := { started := true, startTime := ev.time, lastPrint := ev.time } } rfl
      unfold pullRenders
      simp only [pullRunFrom, hstep]
      rw [List.chain'_cons']
      refine ⟨?_, hih.1⟩
      intro y hy
      have := hih.2 y hy
      simpa [pullRenderP] using this
    · have hstep : pullStep pullInitState ev =
          ({ layerProgress := updateLayer pullInitState.layerProgress ev.layerID ev.layerCurrent,
             pbs := { started := true, startTime := ev.time, lastPrint := ev.time } },
           none) := by
        unfold pullStep
        dsimp only
        rw [hgate, if_neg hct]
        simp
      have hih := pullRunFrom_chain evs
        { layerProgress := updateLayer pullInitState.layerProgress ev.layerID ev.layerCurrent,
          pbs := { started := true, startTime := ev.time, lastPrint := ev.time } } rfl
      unfold pullRenders
      simp only [pullRunFrom, hstep]
      exact hih.1

/-- C9 counterexample: on a concrete successful compose up run the trace
does not contain the setenv URL event followed later by the setenv MODEL
event, so the claimed emission order is false. -/
theorem c9_counterexample :
    ¬ List.Sublist
        [setenvEvent "URL" (composeURLForKind composeCounterEnv),
         setenvEvent "MODEL" (String.intercalate "," ["ai/smollm2"])]
        (composeUpTrace composeCounterEnv ["ai/smollm2"] 4096 "" (fun _ => [])) := by
  decide

/-- C9 amended: a successful compose up emits the setenv MODEL event with
the comma-joined requested models at the end of the download step, and
only afterwards emits the setenv URL event whose value follows the
per-engine-kind rule (Desktop the virtual-host URL, MobyManual the base
URL with the engines path appended, Moby and Cloud the gateway host and
port). -/
theorem c9_compose_model_then_url :
    ∀ (env : ComposeEnv) (models : List String) (ctxSize : Int) (raw : String)
      (pullInfos : String → List String),
      List.Sublist
        [setenvEvent "MODEL" (String.intercalate "," models),
         setenvEvent "URL" (composeURLForKind env)]
        (composeUpTrace env models ctxSize raw pullInfos)
      ∧ composeURLForKind { env with kind := .desktop }
          = "http://model-runner.docker.internal/engines/v1/"
      ∧ composeURLForKind { env with kind := .mobyManual }
          = env.baseURL ++ "/engines/v1/"
      ∧ composeURLForKind { env with kind := .moby }
          = "http://" ++ env.gatewayIP ++ ":" ++ toString env.gatewayPort ++ "/engines/v1"
      ∧ composeURLForKind { env with kind := .cloud }
          = composeURLForKind { env with kind := .moby } := by
  intro env models ctxSize raw pullInfos
  refine ⟨?_, rfl, rfl, rfl, rfl⟩
  have htrace : composeUpTrace env models ctxSize raw pullInfos
      = ([infoEvent "Initializing model runner..."]
          ++ (if ctxSize ≠ 4096
              then [infoEvent ("Setting context size to " ++ toString ctxSize)] else [])
          ++ (if raw ≠ ""
              then [infoEvent ("Setting raw runtime flags to " ++ raw)] else [])
          ++ models.flatMap (fun model =>
              if modelFound env.localModels model then []
              else (pullInfos model).map infoEvent))
        ++ setenvEvent "MODEL" (String.intercalate "," models)
          :: (models.map (fun m => infoEvent ("Successfully configured backend for model " ++ m))
            ++ [setenvEvent "URL" (composeURLForKind env)]) := by
    unfold composeUpTrace downloadModelsOnlyIfNotFound
    simp [List.append_assoc]
  rw [htrace]
  exact sublist_pair _ _ _ _

end ModelCLI
